import Mathlib

/-!
Verification development for the fargate CLI core: the service-create
command pipeline (port/protocol validation, routing-rule parsing,
load-balancer binding, the deployment orchestration in `createService`)
and the ECS task inventory layer (`listTasks`, `DescribeTasks`,
`ListTaskGroups`, `determineENIDetails`).

Go strings are modelled as Lean `String`, Go slices as `List`, and the
handful of `strings`/`regexp` library operations the code uses are
embedded as character-level functions below.  Functions that terminate
the process (`console.ErrorExit`) are modelled as `Except`/error results;
a Go runtime panic (index out of range) is modelled as a distinct
`panicked` outcome.  Remote AWS calls are passed in as explicit function
parameters or state, so every definition is executable.
-/

namespace Fargate

/-! ### Character-level models of Go string operations -/

/-- Splits a character list at the first occurrence of `c`: returns the
characters before and after it, or `none` when `c` does not occur.
This is the character-level core of Go's `strings.SplitN(s, sep, 2)`
for a one-character separator. -/
def splitFirst (c : Char) : List Char → Option (List Char × List Char)
  | [] => none
  | x :: xs =>
    if x = c then some ([], xs)
    else
      match splitFirst c xs with
      | none => none
      | some (a, b) => some (x :: a, b)

/-- Go's `strings.SplitN(s, "=", 2)` for a one-character separator:
a one-element list when the separator is absent, otherwise the parts
before and after its first occurrence. -/
def splitN2 (c : Char) (s : String) : List String :=
  match splitFirst c s.data with
  | none => [s]
  | some (a, b) => [String.mk a, String.mk b]

/-- Go's `strings.Split(s, sep)` for a one-character separator: the
list of segments between occurrences of `c` (never empty; `[""]` for
the empty string). -/
def splitAll (c : Char) : List Char → List (List Char)
  | [] => [[]]
  | x :: xs =>
    if x = c then [] :: splitAll c xs
    else
      match splitAll c xs with
      | [] => [[x]]
      | y :: ys => (x :: y) :: ys

/-- Go's `strings.Split` on a `String`, single-character separator. -/
def goSplit (c : Char) (s : String) : List String :=
  (splitAll c s.data).map String.mk

/-- Go's `strings.ToUpper` (ASCII case mapping suffices for the inputs
the code manipulates). -/
def stringsToUpper (s : String) : String :=
  String.mk (s.data.map Char.toUpper)

/-- Whether `pat` occurs as a contiguous substring of `s`, as Go's
`strings.Contains` / an unanchored regexp literal match. -/
def containsSeq (pat : List Char) : List Char → Bool
  | [] => pat.isEmpty
  | c :: cs => pat.isPrefixOf (c :: cs) || containsSeq pat cs

/-- The characters after the first occurrence of `pat` in the list, or
`none` when `pat` does not occur; the leftmost-match core of Go's
`regexp.FindStringSubmatch` for a pattern `lit(.*)`. -/
def afterFirstSeq (pat : List Char) : List Char → Option (List Char)
  | [] => if pat.isEmpty then some [] else none
  | c :: cs =>
    if pat.isPrefixOf (c :: cs) then some ((c :: cs).drop pat.length)
    else afterFirstSeq pat cs

/-! ### Data model of the service-create command (`cmd` package) -/

/-- `ELBV2.Rule`: a routing rule with a type (`HOST`/`PATH`) and value. -/
structure Rule where
  type : String
  value : String
deriving DecidableEq, Repr

/-- `Port`: protocol plus numeric port, as produced by `inflatePort`. -/
structure Port where
  port : Int
  protocol : String
deriving DecidableEq, Repr

/-- An environment variable (`ECS.EnvVar`). -/
structure EnvVar where
  key : String
  value : String
deriving DecidableEq, Repr

/-- A described load balancer as returned by `ELBV2.DescribeLoadBalancer`:
its kind (`network` or `application`) and its ARN. -/
structure LoadBalancer where
  type : String
  arn : String
deriving DecidableEq, Repr

/-! ### Port/protocol validation (`SetPort`, part_000 lines 35-54) -/

/-- Modelled from the spec: `inflatePort` (Port/Protocol Validator, §4.1)
is not under `src/`; for an input of the form `PROTOCOL:PORT` it yields
the protocol normalized to upper case together with the numeric port. -/
def inflatePort (protocol : String) (portNumber : Int) : Port :=
  { port := portNumber, protocol := stringsToUpper protocol }

/-- Modelled from the spec: `validProtocolsPattern` is not under `src/`;
per §4.1 a protocol is valid exactly when it is one of TCP, HTTP, HTTPS
(the operand here is already upper-cased by `inflatePort`). -/
def validProtocolsMatch (protocol : String) : Bool :=
  protocol = "TCP" || protocol = "HTTP" || protocol = "HTTPS"

/-- The violation messages `SetPort` collects for an inflated port
(part_000 lines 36-47): the invalid-protocol message, then the
invalid-port message, each present exactly when violated. -/
def setPortMsgs (port : Port) : List String :=
  (if ¬ validProtocolsMatch port.protocol then
    ["Invalid protocol " ++ port.protocol ++ " [specify TCP, HTTP, or HTTPS]"]
   else [])
  ++ (if port.port < 1 ∨ port.port > 65535 then
    ["Invalid port " ++ toString port.port ++ " [specify within 1 - 65535]"]
   else [])

/-- `ServiceCreateOperation.SetPort` on an input of the form
`PROTOCOL:PORT`: validates the inflated port, collecting every violation
message before failing (`console.ErrorExit` on the joined messages is
modelled as `Except.error` carrying the message list). -/
def SetPort (protocol : String) (portNumber : Int) : Except (List String) Port :=
  if (setPortMsgs (inflatePort protocol portNumber)).length > 0 then
    .error (setPortMsgs (inflatePort protocol portNumber))
  else
    .ok (inflatePort protocol portNumber)

/-! ### Load-balancer binding (`SetLoadBalancer`, part_000 lines 64-81) -/

/-- `ServiceCreateOperation.SetLoadBalancer`, given the configured port
protocol, the requested balancer name and the describe-call result.
On success it records the balancer's name and ARN on the operation
(returned as a pair); an incompatible kind/protocol pairing exits with
the source's error message. -/
def SetLoadBalancer (portProtocol : String) (lb : String)
    (loadBalancer : LoadBalancer) : Except String (String × String) :=
  if loadBalancer.type = "network" ∧ portProtocol ≠ "TCP" then
    .error ("network load balancer " ++ lb ++ " only supports TCP")
  else if loadBalancer.type = "application"
      ∧ ¬(portProtocol = "HTTP" ∨ portProtocol = "HTTPS") then
    .error ("application load balancer " ++ lb ++ " only supports HTTP or HTTPS")
  else
    .ok (lb, loadBalancer.arn)

/-! ### Routing-rule parsing (`SetRules`, part_000 lines 83-117) -/

/-- Go's `regexp.MustCompile("(?i)^host|path$").MatchString`: in RE2 the
alternation binds looser than the anchors, so the pattern is
`(?i)((^host)|(path$))` and it matches any string that starts with
`host` or ends with `path`, case-insensitively. -/
def validRuleTypesMatch (s : String) : Bool :=
  "host".data.isPrefixOf (s.data.map Char.toLower)
    || "path".data.isSuffixOf (s.data.map Char.toLower)

/-- The outcome of `SetRules`: a Go runtime panic (index out of range),
a `console.ErrorExit` with the collected violation messages, or the
parsed rules stored on the operation. -/
inductive RulesResult where
  | panicked : RulesResult
  | errorExit : List String → RulesResult
  | ok : List Rule → RulesResult
deriving DecidableEq, Repr

/-- The per-entry loop of `SetRules` (part_000 lines 93-110): splits the
entry at the first `=`, collects violation messages, and appends the
parsed rule; accessing `splitInputRule[1]` when the entry has no `=`
is the out-of-range panic, modelled as `none`. -/
def setRulesLoop (msgs : List String) (rules : List Rule) :
    List String → Option (List String × List Rule)
  | [] => some (msgs, rules)
  | inputRule :: rest =>
    let splitInputRule := splitN2 '=' inputRule
    let msgs1 :=
      if splitInputRule.length ≠ 2 then
        msgs ++ ["rules must be in the form of type=value"]
      else msgs
    let msgs2 :=
      if ¬ validRuleTypesMatch (splitInputRule.headD "") then
        msgs1 ++ ["Invalid rule type " ++ splitInputRule.headD "" ++ " [must be path or host]"]
      else msgs1
    match splitInputRule with
    | [t, v] => setRulesLoop msgs2 (rules ++ [{ type := stringsToUpper t, value := v }]) rest
    | _ => none

/-- `ServiceCreateOperation.SetRules`, given the operation's
`LoadBalancerArn` and the input rule strings. -/
def SetRules (loadBalancerArn : String) (inputRules : List String) : RulesResult :=
  let msgs0 : List String :=
    if inputRules.length > 0 ∧ loadBalancerArn = "" then
      ["lb must be configured if rules are specified"]
    else []
  match setRulesLoop msgs0 [] inputRules with
  | none => .panicked
  | some (msgs, rules) => if msgs.length > 0 then .errorExit msgs else .ok rules

/-- The rule a single accepted entry parses to: type before the first
`=` upper-cased, value after it. -/
def parsedRule (r : String) : Rule :=
  match splitN2 '=' r with
  | [t, v] => { type := stringsToUpper t, value := v }
  | _ => { type := "", value := "" }

/-- The type component of a rule entry (text before the first `=`). -/
def entryRuleType (r : String) : String :=
  (splitN2 '=' r).headD ""

/-- The violation messages a single rule entry contributes in the
non-panicking (separator present) case. -/
def entryMsgs (r : String) : List String :=
  if ¬ validRuleTypesMatch (entryRuleType r) then
    ["Invalid rule type " ++ entryRuleType r ++ " [must be path or host]"]
  else []

/-! ### Deployment orchestration (`createService`, part_000 lines 168-255) -/

/-- The full service-create operation (part_000 lines 22-33), minus the
live client handle. -/
structure ServiceCreateOperation where
  ServiceName : String
  Cpu : String
  Image : String
  Memory : String
  Port : Port
  LoadBalancerArn : String
  LoadBalancerName : String
  Rules : List Rule
  EnvVars : List EnvVar
deriving DecidableEq, Repr

/-- One remote/side-effecting step of a `createService` run. -/
inductive DeployStep where
  | acquireRepository : DeployStep
  | getDefaultVpcSubnetIds : DeployStep
  | createEcsTaskExecutionRole : DeployStep
  | createLogGroup : DeployStep
  | buildAndPushImage : DeployStep
  | createTargetGroup : String → Int → String → DeployStep
  | addRule : Rule → DeployStep
  | modifyLoadBalancerDefaultAction : DeployStep
  | createTaskDefinition : DeployStep
  | createService : DeployStep
deriving DecidableEq, Repr

/-- The sequence of deployment steps one `createService(operation)` run
performs, in source order: repository acquisition, network/role/log
acquisition, the conditional image build-and-push (lines 193-209), the
conditional load-balancer wiring (lines 211-229), then task-definition
registration and service creation. -/
def createServicePlan (operation : ServiceCreateOperation) : List DeployStep :=
  [.acquireRepository, .getDefaultVpcSubnetIds, .createEcsTaskExecutionRole, .createLogGroup]
  ++ (if operation.Image = "" then [.buildAndPushImage] else [])
  ++ (if operation.LoadBalancerArn ≠ "" then
        [.createTargetGroup (operation.LoadBalancerName ++ "-" ++ operation.ServiceName)
          operation.Port.port operation.Port.protocol]
        ++ (if operation.Rules.length > 0 then
              operation.Rules.map .addRule
            else [.modifyLoadBalancerDefaultAction])
      else [])
  ++ [.createTaskDefinition, .createService]

/-- Whether a step belongs to the load-balancer wiring block
(lines 211-229). -/
def isLbWiringStep : DeployStep → Bool
  | .createTargetGroup _ _ _ => true
  | .addRule _ => true
  | .modifyLoadBalancerDefaultAction => true
  | _ => false

/-- Whether a step is a target-group creation. -/
def isCreateTargetGroup : DeployStep → Bool
  | .createTargetGroup _ _ _ => true
  | _ => false

/-- Whether a step is a listener-rule attachment. -/
def isAddRuleStep : DeployStep → Bool
  | .addRule _ => true
  | _ => false

/-! ### Image-repository acquisition (part_000 lines 182-186) -/

/-- Modelled from the spec: the image-repository client
(`ecr.IsRepositoryCreated` / `GetRepositoryUri` / `CreateRepository`,
§6 Image Repository Client) is not under `src/`; the platform state is
the map from repository names to their canonical references. -/
structure EcrState where
  repos : List (String × String)
deriving DecidableEq, Repr

/-- Modelled from the spec: `exists(name) -> bool`. -/
def IsRepositoryCreated (st : EcrState) (name : String) : Bool :=
  (st.repos.lookup name).isSome

/-- Modelled from the spec: `reference(name) -> reference`. -/
def GetRepositoryUri (st : EcrState) (name : String) : String :=
  (st.repos.lookup name).getD ""

/-- Modelled from the spec: `create(name) -> reference`, which fails when
the repository already exists and otherwise records the new repository's
canonical reference in the platform state. -/
def CreateRepository (st : EcrState) (name : String) :
    Except String (String × EcrState) :=
  if (st.repos.lookup name).isSome then
    .error "repository already exists"
  else
    .ok ("registry/" ++ name, { repos := (name, "registry/" ++ name) :: st.repos })

/-- The check-if-exists / get-or-create sequence opening `createService`
(part_000 lines 182-186): returns the repository reference and the
resulting platform state. -/
def acquireRepository (st : EcrState) (name : String) :
    Except String (String × EcrState) :=
  if IsRepositoryCreated st name then
    .ok (GetRepositoryUri st name, st)
  else
    CreateRepository st name

/-! ### ECS task inventory (`src/ecs/task.go`) -/

/-- The enriched `Task` projection (task.go lines 22-37); `time.Time` is
modelled as a numeric timestamp. -/
structure Task where
  Cpu : String
  CreatedAt : Nat
  DeploymentId : String
  DesiredStatus : String
  EniId : String
  EnvVars : List EnvVar
  Image : String
  LastStatus : String
  Memory : String
  SecurityGroupIds : List String
  StartedBy : String
  SubnetId : String
  TaskId : String
  TaskRole : String
deriving DecidableEq, Repr

/-- `TaskGroup` (task.go lines 43-46); `Instances` is an `int64` counter
that is only ever incremented, modelled as `Nat`. -/
structure TaskGroup where
  TaskGroupName : String
  Instances : Nat
deriving DecidableEq, Repr

/-- A `Name`/`Value` pair as used by attachment details and container
environment entries in the AWS task records. -/
structure KeyValuePair where
  Name : String
  Value : String
deriving DecidableEq, Repr

/-- An attachment of a remote task record. -/
structure Attachment where
  type : String
  Details : List KeyValuePair
deriving DecidableEq, Repr

/-- The fields of a remote `awsecs.Task` record that the inventory
reads. -/
structure AwsTask where
  TaskArn : String
  Cpu : String
  CreatedAt : Nat
  DesiredStatus : String
  LastStatus : String
  Memory : String
  StartedBy : String
  TaskDefinitionArn : String
  Attachments : List Attachment
deriving DecidableEq, Repr

/-- The fields of a described task definition that enrichment reads. -/
structure ContainerDefinition where
  Image : String
  Environment : List KeyValuePair
deriving DecidableEq, Repr

/-- A described task definition. -/
structure TaskDefinition where
  ContainerDefinitions : List ContainerDefinition
  TaskRoleArn : String
deriving DecidableEq, Repr

/-- The constant `eniAttachmentType` (task.go line 19). -/
def eniAttachmentType : String := "ElasticNetworkInterface"

/-- The logical group name extracted from a started-by tag by
`regexp.MustCompile("fargate:(.*)").FindStringSubmatch`: the submatch is
everything after the first occurrence of `fargate:` up to the end of the
line (`.` does not match a newline), and there is no submatch when
`fargate:` does not occur. -/
def extractTaskGroupName (startedBy : String) : Option String :=
  (afterFirstSeq "fargate:".data startedBy.data).map
    fun cs => String.mk (cs.takeWhile fun c => c ≠ '\n')

/-- The inner search of `ListTaskGroups` (task.go lines 115-120):
increment the first group holding the logical name. -/
def incrementGroup (name : String) : List TaskGroup → List TaskGroup
  | [] => []
  | g :: gs =>
    if g.TaskGroupName = name then
      { g with Instances := g.Instances + 1 } :: gs
    else g :: incrementGroup name gs

/-- The accumulation step of `ListTaskGroups` for one matching logical
name (task.go lines 115-128): increment the existing group when one
holds the name, otherwise append a fresh group with count one. -/
def addName (groups : List TaskGroup) (taskGroupName : String) : List TaskGroup :=
  if groups.any fun g => g.TaskGroupName = taskGroupName then
    incrementGroup taskGroupName groups
  else
    groups ++ [{ TaskGroupName := taskGroupName, Instances := 1 }]

/-- One iteration of the `OUTER` loop of `ListTaskGroups` (task.go lines
109-130): skip a non-matching tag, otherwise accumulate its logical
name. -/
def scanTask (groups : List TaskGroup) (startedBy : String) : List TaskGroup :=
  match extractTaskGroupName startedBy with
  | none => groups
  | some taskGroupName => addName groups taskGroupName

/-- `ECS.ListTaskGroups` (task.go lines 99-133), applied to the task
records the cluster-wide listing returned. -/
def ListTaskGroups (tasks : List Task) : List TaskGroup :=
  tasks.foldl (fun gs t => scanTask gs t.StartedBy) []

/-- The pagination callback of `listTasks` (task.go lines 158-167):
every page is consumed (the callback always returns `true`) and each
non-empty page's identifier batch is accumulated in page order. -/
def listTasksBatches (pages : List (List String)) : List (List String) :=
  pages.foldl (fun batches page =>
    if page.length > 0 then batches ++ [page] else batches) []

/-- `ECS.listTasks` (task.go lines 154-182): accumulate the identifier
batches of all pages, then resolve each batch independently through the
describe operation and append its tasks in batch order. -/
def listTasks (describeFn : List String → List Task)
    (pages : List (List String)) : List Task :=
  let taskArnBatches := listTasksBatches pages
  if taskArnBatches.length > 0 then
    taskArnBatches.foldl (fun tasks batch => tasks ++ describeFn batch) []
  else []

/-- The detail scan inside `determineENIDetails` (task.go lines 259-266):
a `networkInterfaceId` detail sets the interface id, a `subnetId` detail
sets the subnet id, later details overwrite earlier ones. -/
def scanDetails (acc : String × String) (details : List KeyValuePair) :
    String × String :=
  details.foldl (fun acc detail =>
    if detail.Name = "networkInterfaceId" then (detail.Value, acc.2)
    else if detail.Name = "subnetId" then (acc.1, detail.Value)
    else acc) acc

/-- `determineENIDetails` (task.go lines 245-271): scan the attachments,
considering only those of the network-interface type, and extract the
interface and subnet identifiers from their details. -/
def determineENIDetails (t : AwsTask) : Bool × String × String :=
  if t.Attachments.length > 0 then
    t.Attachments.foldl (fun acc attachment =>
      if attachment.type ≠ eniAttachmentType then acc
      else (true, scanDetails acc.2 attachment.Details)) (false, ("", ""))
  else (false, ("", ""))

/-- The per-record enrichment loop body of `DescribeTasks` (task.go lines
202-240), with the remote `DescribeTaskDefinition` response and the
revision extraction passed in. Accessing `ContainerDefinitions[0]` on an
empty list is the Go panic, modelled as `none`. -/
def enrichTask (getRevision : String → String) (taskDefinition : TaskDefinition)
    (t : AwsTask) : Option Task :=
  match taskDefinition.ContainerDefinitions with
  | [] => none
  | c :: _ =>
    let contents := goSplit '/' t.TaskArn
    let taskID := contents.getLastD ""
    let base : Task :=
      { Cpu := t.Cpu
        CreatedAt := t.CreatedAt
        DeploymentId := getRevision t.TaskDefinitionArn
        DesiredStatus := t.DesiredStatus
        EniId := ""
        EnvVars := c.Environment.map fun e => { key := e.Name, value := e.Value }
        Image := c.Image
        LastStatus := t.LastStatus
        Memory := t.Memory
        SecurityGroupIds := []
        StartedBy := t.StartedBy
        SubnetId := ""
        TaskId := taskID
        TaskRole := taskDefinition.TaskRoleArn }
    let det := determineENIDetails t
    some (if det.1 then { base with EniId := det.2.1, SubnetId := det.2.2 } else base)

/-- Specification-side rendering of the grouping policy (§4.5 Grouping):
the distinct logical names, in first-seen order. -/
def firstSeen : List String → List String
  | [] => []
  | n :: ns => n :: firstSeen (ns.filter fun m => m ≠ n)
termination_by ns => ns.length
decreasing_by
  simp only [List.length_cons]
  exact Nat.lt_succ_of_le (List.length_filter_le _ _)

/-- Specification-side rendering of the grouping policy (§4.5 Grouping):
one group per distinct logical name in first-seen order, counting the
occurrences of that name. -/
def specTaskGroups (names : List String) : List TaskGroup :=
  (firstSeen names).map fun n => { TaskGroupName := n, Instances := names.count n }

/-- `ECS.DescribeTasks` (task.go lines 184-243): an empty identifier list
returns the empty task list before the remote describe call; otherwise
the remote records are fetched and each is enriched (a panic while
enriching aborts the whole call). -/
def DescribeTasks (describeRemote : List String → List AwsTask)
    (describeTaskDef : String → TaskDefinition) (getRevision : String → String)
    (taskIds : List String) : Option (List Task) :=
  if taskIds.length = 0 then some []
  else
    (describeRemote taskIds).mapM fun t =>
      enrichTask getRevision (describeTaskDef t.TaskDefinitionArn) t

/-- The messages `SetRules` has collected once the loop survives: the
missing-load-balancer message followed by each entry's violations. -/
def setRulesMsgs (loadBalancerArn : String) (inputRules : List String) : List String :=
  (if inputRules.length > 0 ∧ loadBalancerArn = "" then
    ["lb must be configured if rules are specified"]
   else [])
  ++ (inputRules.map entryMsgs).flatten

/-- A task record carrying only a started-by tag, for concrete grouping
examples. -/
def mkStartedTask (startedBy : String) : Task :=
  { Cpu := "", CreatedAt := 0, DeploymentId := "", DesiredStatus := "", EniId := "",
    EnvVars := [], Image := "", LastStatus := "", Memory := "", SecurityGroupIds := [],
    StartedBy := startedBy, SubnetId := "", TaskId := "", TaskRole := "" }

/-! ### Theorems -/

/-- Claim C4 (code bug): a rule entry with no `=` separator is supposed
to be reported as a collected violation, but `SetRules` indexes
`splitInputRule[1]` unconditionally, so the run panics with an
out-of-range access instead of reporting the aggregated error. -/
theorem setRules_no_separator_panics :
    SetRules "arn:lb:1" ["banana"] = .panicked := by decide

/-- Claim C6 (counterexample): binding a network load balancer while the
configured protocol is HTTP fails with a message that cites the
balancer's required protocol (TCP) but does not contain the configured
protocol (HTTP), contrary to the claim that the message cites both. -/
theorem setLoadBalancer_message_counterexample :
    SetLoadBalancer "HTTP" "my-nlb" { type := "network", arn := "arn:nlb" }
        = .error "network load balancer my-nlb only supports TCP"
    ∧ containsSeq "HTTP".data "network load balancer my-nlb only supports TCP".data
        = false := by
  constructor
  · rfl
  · decide

/-- Claim C6 (amended): `SetLoadBalancer` fails exactly when the
described balancer has kind network and the configured protocol is not
TCP, or kind application and the protocol is neither HTTP nor HTTPS;
the failure message cites the balancer's name and its required
protocol; on acceptance the balancer's name and ARN are recorded. -/
theorem setLoadBalancer_spec (protocol lbName : String) (lb : LoadBalancer) :
    (SetLoadBalancer protocol lbName lb = .ok (lbName, lb.arn) ↔
      ¬((lb.type = "network" ∧ protocol ≠ "TCP") ∨
        (lb.type = "application" ∧ protocol ≠ "HTTP" ∧ protocol ≠ "HTTPS"))) ∧
    (lb.type = "network" → protocol ≠ "TCP" →
      SetLoadBalancer protocol lbName lb =
        .error ("network load balancer " ++ lbName ++ " only supports TCP")) ∧
    (lb.type = "application" → protocol ≠ "HTTP" → protocol ≠ "HTTPS" →
      SetLoadBalancer protocol lbName lb =
        .error ("application load balancer " ++ lbName ++ " only supports HTTP or HTTPS")) := by
  unfold SetLoadBalancer
  split_ifs with h1 h2
  · refine ⟨?_, fun _ _ => rfl, fun ha _ _ => absurd (h1.1.symm.trans ha) (by decide)⟩
    constructor
    · intro h
      simp at h
    · intro hn
      exact absurd (Or.inl h1) hn
  · refine ⟨?_, fun hn ht => absurd ⟨hn, ht⟩ h1, fun _ _ _ => rfl⟩
    constructor
    · intro h
      simp at h
    · intro hn
      exact absurd (Or.inr ⟨h2.1, fun hh => h2.2 (Or.inl hh), fun hs => h2.2 (Or.inr hs)⟩) hn
  · refine ⟨?_, fun hn ht => absurd ⟨hn, ht⟩ h1,
      fun ha hh hs => absurd ⟨ha, fun hor => hor.elim hh hs⟩ h2⟩
    constructor
    · intro _
      rintro (⟨hn, ht⟩ | ⟨ha, hh, hs⟩)
      · exact h1 ⟨hn, ht⟩
      · exact h2 ⟨ha, fun hor => hor.elim hh hs⟩
    · intro _
      rfl

/-- Claim C6 witness: the amended characterization applied at an
application load balancer paired with protocol TCP. -/
theorem setLoadBalancer_spec_witness :
    ("application" : String) = "application" ∧ ("TCP" : String) ≠ "HTTP" ∧
    ("TCP" : String) ≠ "HTTPS" ∧
    SetLoadBalancer "TCP" "my-alb" { type := "application", arn := "arn:alb" } =
      .error ("application load balancer " ++ "my-alb" ++ " only supports HTTP or HTTPS") :=
  ⟨rfl, by decide, by decide,
    (setLoadBalancer_spec "TCP" "my-alb" { type := "application", arn := "arn:alb" }).2.2
      rfl (by decide) (by decide)⟩

/-- Claim C7: repository acquisition is idempotent — a second run of the
check-if-exists / get-or-create sequence against the state left by the
first run returns the same reference and state, and never fails with
"already exists". -/
theorem acquireRepository_idempotent (st : EcrState) (name uri : String)
    (st' : EcrState) (h : acquireRepository st name = .ok (uri, st')) :
    acquireRepository st' name = .ok (uri, st') := by
  unfold acquireRepository CreateRepository at h
  by_cases hc : IsRepositoryCreated st name
  · rw [if_pos hc] at h
    obtain ⟨h1, h2⟩ : GetRepositoryUri st name = uri ∧ st = st' := by
      simpa using h
    subst h2
    unfold acquireRepository
    rw [if_pos hc, h1]
  · rw [if_neg hc] at h
    have hlk : ¬((st.repos.lookup name).isSome = true) := hc
    rw [if_neg hlk] at h
    obtain ⟨h1, h2⟩ : "registry/" ++ name = uri ∧
        ({ repos := (name, "registry/" ++ name) :: st.repos } : EcrState) = st' := by
      simpa using h
    subst h2
    unfold acquireRepository
    have hc' : IsRepositoryCreated { repos := (name, "registry/" ++ name) :: st.repos } name := by
      simp [IsRepositoryCreated, List.lookup]
    rw [if_pos hc']
    have : GetRepositoryUri { repos := (name, "registry/" ++ name) :: st.repos } name =
        "registry/" ++ name := by
      simp [GetRepositoryUri, List.lookup]
    rw [this, h1]

/-- Claim C7 witness: acquiring the repository for service `web` on an
empty platform creates it; the theorem then gives that the second run
returns the same reference and state. -/
theorem acquireRepository_idempotent_witness :
    acquireRepository { repos := [] } "web" =
      .ok ("registry/web", { repos := [("web", "registry/web")] }) ∧
    acquireRepository { repos := [("web", "registry/web")] } "web" =
      .ok ("registry/web", { repos := [("web", "registry/web")] }) :=
  ⟨rfl, acquireRepository_idempotent { repos := [] } "web" "registry/web"
    { repos := [("web", "registry/web")] } rfl⟩

/-- The batch accumulator of `listTasks` keeps exactly the non-empty
pages, in page order. -/
theorem listTasksBatches_eq_filter (pages : List (List String)) :
    listTasksBatches pages = pages.filter fun p => !p.isEmpty := by
  have aux : ∀ (ps : List (List String)) (acc : List (List String)),
      ps.foldl (fun batches page =>
        if page.length > 0 then batches ++ [page] else batches) acc =
        acc ++ ps.filter fun p => !p.isEmpty := by
    intro ps
    induction ps with
    | nil => simp
    | cons p rest ih =>
      intro acc
      by_cases hp : p.length > 0
      · have hne : (!p.isEmpty) = true := by
          cases p <;> simp_all
        simp [List.foldl_cons, hp, hne, ih, List.filter_cons]
      · have hne : (!p.isEmpty) = false := by
          cases p <;> simp_all
        simp [List.foldl_cons, hp, hne, ih, List.filter_cons]
  simpa [listTasksBatches] using aux pages []

/-- Claim C8: `listTasks` consumes every page, accumulates each
non-empty identifier batch in page order, resolves each batch
independently through the describe operation, and returns the
concatenation of the described tasks in page order. -/
theorem listTasks_spec (describeFn : List String → List Task)
    (pages : List (List String)) :
    listTasks describeFn pages =
      ((pages.filter fun p => !p.isEmpty).map describeFn).flatten := by
  have aux : ∀ (bs : List (List String)) (acc : List Task),
      bs.foldl (fun tasks batch => tasks ++ describeFn batch) acc =
        acc ++ (bs.map describeFn).flatten := by
    intro bs
    induction bs with
    | nil => simp
    | cons b rest ih => intro acc; simp [List.foldl_cons, ih]
  unfold listTasks
  rw [listTasksBatches_eq_filter]
  by_cases h : (pages.filter fun p => !p.isEmpty).length > 0
  · simp only [h, if_pos]
    simpa using aux (pages.filter fun p => !p.isEmpty) []
  · have : (pages.filter fun p => !p.isEmpty) = [] := by
      simpa [List.length_pos] using h
    simp [this]

/-- Claim C10: `DescribeTasks` on an empty identifier list returns the
empty task list without consulting the remote describe operation (the
result is independent of it), and `listTasks` never accumulates an
empty identifier batch, so the describe operation is never invoked on
one. -/
theorem describeTasks_empty_guard :
    (∀ (r₁ r₂ : List String → List AwsTask)
        (d₁ d₂ : String → TaskDefinition) (g₁ g₂ : String → String),
      DescribeTasks r₁ d₁ g₁ [] = some [] ∧
      DescribeTasks r₁ d₁ g₁ [] = DescribeTasks r₂ d₂ g₂ []) ∧
    (∀ (pages : List (List String)) (batch : List String),
      batch ∈ listTasksBatches pages → batch ≠ []) := by
  constructor
  · intro r₁ r₂ d₁ d₂ g₁ g₂
    exact ⟨rfl, rfl⟩
  · intro pages batch hmem
    rw [listTasksBatches_eq_filter] at hmem
    have := List.of_mem_filter hmem
    cases batch <;> simp_all

/-- Claim C10 witness: the guard instantiated on a page response with an
empty middle page — its batches are the two non-empty pages, and each
is non-empty. -/
theorem describeTasks_empty_guard_witness :
    (["a"] : List String) ∈ listTasksBatches [["a"], [], ["b", "c"]] ∧
    (["a"] : List String) ≠ [] := by
  constructor
  · decide
  · exact describeTasks_empty_guard.2 [["a"], [], ["b", "c"]] ["a"] (by decide)

/-- The attachment scan returns its initial state when no attachment has
the network-interface type. -/
theorem determineENIDetails_no_eni (t : AwsTask)
    (h : ∀ a ∈ t.Attachments, a.type ≠ eniAttachmentType) :
    determineENIDetails t = (false, ("", "")) := by
  have aux : ∀ (l : List Attachment) (acc : Bool × String × String),
      (∀ a ∈ l, a.type ≠ eniAttachmentType) →
      l.foldl (fun acc attachment =>
        if attachment.type ≠ eniAttachmentType then acc
        else (true, scanDetails acc.2 attachment.Details)) acc = acc := by
    intro l
    induction l with
    | nil => simp
    | cons a rest ih =>
      intro acc hl
      have ha : a.type ≠ eniAttachmentType := hl a (List.mem_cons_self a rest)
      simp only [List.foldl_cons, if_pos ha]
      exact ih acc fun x hx => hl x (List.mem_cons_of_mem a hx)
  unfold determineENIDetails
  split
  · exact aux t.Attachments (false, ("", "")) h
  · rfl

/-- Claim C9: enriching a remote task record whose attachments contain
no entry of the network-interface type yields a task with empty
interface and subnet fields (and does not fail), the task identifier
being the final path segment of the resource reference; when a
network-interface attachment with the two detail entries is present,
its identifiers are extracted into those fields. -/
theorem enrichTask_spec (getRevision : String → String) (td : TaskDefinition)
    (t : AwsTask) (c : ContainerDefinition) (cs : List ContainerDefinition)
    (hcd : td.ContainerDefinitions = c :: cs) :
    ((∀ a ∈ t.Attachments, a.type ≠ eniAttachmentType) →
      ∃ task, enrichTask getRevision td t = some task ∧
        task.EniId = "" ∧ task.SubnetId = "" ∧
        task.TaskId = (goSplit '/' t.TaskArn).getLastD "") ∧
    (∀ e s, t.Attachments =
        [{ type := eniAttachmentType,
           Details := [{ Name := "networkInterfaceId", Value := e },
                       { Name := "subnetId", Value := s }] }] →
      ∃ task, enrichTask getRevision td t = some task ∧
        task.EniId = e ∧ task.SubnetId = s ∧
        task.TaskId = (goSplit '/' t.TaskArn).getLastD "") := by
  constructor
  · intro h
    have hdet := determineENIDetails_no_eni t h
    unfold enrichTask
    rw [hcd]
    simp only [hdet]
    exact ⟨_, rfl, rfl, rfl, rfl⟩
  · intro e s hatt
    have hdet : determineENIDetails t = (true, (e, s)) := by
      unfold determineENIDetails
      rw [hatt]
      simp [scanDetails, eniAttachmentType]
    unfold enrichTask
    rw [hcd]
    simp only [hdet]
    exact ⟨_, rfl, rfl, rfl, rfl⟩

/-- Claim C9 witness: the enrichment applied to a concrete record with
one container definition and no attachments. -/
theorem enrichTask_spec_witness :
    (∀ a ∈ ({ TaskArn := "cluster/task1", Cpu := "256", CreatedAt := 0,
              DesiredStatus := "RUNNING", LastStatus := "RUNNING", Memory := "512",
              StartedBy := "fargate:web", TaskDefinitionArn := "td:1",
              Attachments := [] } : AwsTask).Attachments,
      a.type ≠ eniAttachmentType) ∧
    ∃ task, enrichTask (fun _ => "1")
        { ContainerDefinitions := [{ Image := "img", Environment := [] }],
          TaskRoleArn := "role" }
        { TaskArn := "cluster/task1", Cpu := "256", CreatedAt := 0,
          DesiredStatus := "RUNNING", LastStatus := "RUNNING", Memory := "512",
          StartedBy := "fargate:web", TaskDefinitionArn := "td:1",
          Attachments := [] } = some task ∧
      task.EniId = "" ∧ task.SubnetId = "" ∧
      task.TaskId = (goSplit '/' "cluster/task1").getLastD "" :=
  ⟨by simp, (enrichTask_spec (fun _ => "1")
      { ContainerDefinitions := [{ Image := "img", Environment := [] }],
        TaskRoleArn := "role" }
      { TaskArn := "cluster/task1", Cpu := "256", CreatedAt := 0,
        DesiredStatus := "RUNNING", LastStatus := "RUNNING", Memory := "512",
        StartedBy := "fargate:web", TaskDefinitionArn := "td:1",
        Attachments := [] } _ _ rfl).1 (by simp)⟩

/-- Claim C5: for an input of the form `PROTOCOL:PORT`, `SetPort`
accepts exactly when the protocol is tcp, http, or https
case-insensitively (its upper-cased form is one of the three tokens)
and the port lies in `[1, 65535]`; when both the protocol and the port
are invalid, the single aggregated error lists both violations. -/
theorem setPort_spec (protocol : String) (portNumber : Int) :
    ((∃ port, SetPort protocol portNumber = .ok port) ↔
      ((stringsToUpper protocol = "TCP" ∨ stringsToUpper protocol = "HTTP" ∨
        stringsToUpper protocol = "HTTPS") ∧ 1 ≤ portNumber ∧ portNumber ≤ 65535)) ∧
    (¬(stringsToUpper protocol = "TCP" ∨ stringsToUpper protocol = "HTTP" ∨
        stringsToUpper protocol = "HTTPS") →
      (portNumber < 1 ∨ portNumber > 65535) →
      SetPort protocol portNumber = .error
        ["Invalid protocol " ++ stringsToUpper protocol ++ " [specify TCP, HTTP, or HTTPS]",
         "Invalid port " ++ toString portNumber ++ " [specify within 1 - 65535]"]) := by
  have hmatch : validProtocolsMatch (stringsToUpper protocol) = true ↔
      (stringsToUpper protocol = "TCP" ∨ stringsToUpper protocol = "HTTP" ∨
        stringsToUpper protocol = "HTTPS") := by
    simp [validProtocolsMatch, or_assoc]
  have hproj1 : (inflatePort protocol portNumber).protocol = stringsToUpper protocol := rfl
  have hproj2 : (inflatePort protocol portNumber).port = portNumber := rfl
  by_cases hp : validProtocolsMatch (stringsToUpper protocol) = true
  · by_cases hr : portNumber < 1 ∨ portNumber > 65535
    · have hmsgs : setPortMsgs (inflatePort protocol portNumber) =
          ["Invalid port " ++ toString portNumber ++ " [specify within 1 - 65535]"] := by
        unfold setPortMsgs
        rw [hproj1, hproj2, if_neg (not_not_intro hp), if_pos hr, List.nil_append]
      have hres : SetPort protocol portNumber = .error
          ["Invalid port " ++ toString portNumber ++ " [specify within 1 - 65535]"] := by
        unfold SetPort
        rw [hmsgs]
        rfl
      constructor
      · rw [hres]
        constructor
        · rintro ⟨port, hport⟩
          simp at hport
        · rintro ⟨-, h1, h2⟩
          omega
      · intro hnp _
        exact absurd (hmatch.mp hp) hnp
    · have hmsgs : setPortMsgs (inflatePort protocol portNumber) = [] := by
        unfold setPortMsgs
        rw [hproj1, hproj2, if_neg (not_not_intro hp), if_neg hr, List.nil_append]
      have hres : SetPort protocol portNumber = .ok (inflatePort protocol portNumber) := by
        unfold SetPort
        rw [hmsgs]
        rfl
      constructor
      · rw [hres]
        constructor
        · intro _
          exact ⟨hmatch.mp hp, by omega, by omega⟩
        · intro _
          exact ⟨_, rfl⟩
      · intro hnp _
        exact absurd (hmatch.mp hp) hnp
  · have hmsg1 : (if ¬ validProtocolsMatch (stringsToUpper protocol) = true then
        ["Invalid protocol " ++ stringsToUpper protocol ++ " [specify TCP, HTTP, or HTTPS]"]
      else ([] : List String)) =
        ["Invalid protocol " ++ stringsToUpper protocol ++ " [specify TCP, HTTP, or HTTPS]"] :=
      if_pos hp
    by_cases hr : portNumber < 1 ∨ portNumber > 65535
    · have hmsgs : setPortMsgs (inflatePort protocol portNumber) =
          ["Invalid protocol " ++ stringsToUpper protocol ++ " [specify TCP, HTTP, or HTTPS]",
           "Invalid port " ++ toString portNumber ++ " [specify within 1 - 65535]"] := by
        unfold setPortMsgs
        rw [hproj1, hproj2, hmsg1, if_pos hr]
        rfl
      have hres : SetPort protocol portNumber = .error
          ["Invalid protocol " ++ stringsToUpper protocol ++ " [specify TCP, HTTP, or HTTPS]",
           "Invalid port " ++ toString portNumber ++ " [specify within 1 - 65535]"] := by
        unfold SetPort
        rw [hmsgs]
        rfl
      constructor
      · rw [hres]
        constructor
        · rintro ⟨port, hport⟩
          simp at hport
        · rintro ⟨hm, -⟩
          exact absurd (hmatch.mpr hm) hp
      · intro _ _
        exact hres
    · have hmsgs : setPortMsgs (inflatePort protocol portNumber) =
          ["Invalid protocol " ++ stringsToUpper protocol ++ " [specify TCP, HTTP, or HTTPS]"] := by
        unfold setPortMsgs
        rw [hproj1, hproj2, hmsg1, if_neg hr, List.append_nil]
      have hres : SetPort protocol portNumber = .error
          ["Invalid protocol " ++ stringsToUpper protocol ++ " [specify TCP, HTTP, or HTTPS]"] := by
        unfold SetPort
        rw [hmsgs]
        rfl
      constructor
      · rw [hres]
        constructor
        · rintro ⟨port, hport⟩
          simp at hport
        · rintro ⟨hm, -⟩
          exact absurd (hmatch.mpr hm) hp
      · intro _ hrange
        exact absurd hrange hr

/-- Claim C5 witness: an invalid protocol together with an out-of-range
port reports both violations at once. -/
theorem setPort_spec_witness :
    ¬(stringsToUpper "udp" = "TCP" ∨ stringsToUpper "udp" = "HTTP" ∨
      stringsToUpper "udp" = "HTTPS") ∧
    ((70000 : Int) < 1 ∨ (70000 : Int) > 65535) ∧
    SetPort "udp" 70000 = .error
      ["Invalid protocol " ++ stringsToUpper "udp" ++ " [specify TCP, HTTP, or HTTPS]",
       "Invalid port " ++ toString (70000 : Int) ++ " [specify within 1 - 65535]"] :=
  ⟨by decide, by norm_num,
    (setPort_spec "udp" 70000).2 (by decide) (by norm_num)⟩

/-- Claim C1: in one `createService` run, the load-balancer wiring block
executes exactly when a load balancer was configured; when it executes
it creates one target group named `{load-balancer-name}-{service-name}`
on the configured port and protocol, then attaches one listener rule
per configured routing rule without touching the default action when
rules exist, and replaces the default action (attaching no rule) when
none do; independently, the image build/publish step executes exactly
when no explicit image was supplied. -/
theorem createService_plan_spec (operation : ServiceCreateOperation) :
    ((createServicePlan operation).filter isLbWiringStep ≠ [] ↔
      operation.LoadBalancerArn ≠ "") ∧
    (operation.LoadBalancerArn ≠ "" →
      (createServicePlan operation).filter isCreateTargetGroup =
        [.createTargetGroup (operation.LoadBalancerName ++ "-" ++ operation.ServiceName)
          operation.Port.port operation.Port.protocol] ∧
      (operation.Rules ≠ [] →
        (createServicePlan operation).filter isAddRuleStep =
          operation.Rules.map DeployStep.addRule ∧
        DeployStep.modifyLoadBalancerDefaultAction ∉ createServicePlan operation) ∧
      (operation.Rules = [] →
        DeployStep.modifyLoadBalancerDefaultAction ∈ createServicePlan operation ∧
        (createServicePlan operation).filter isAddRuleStep = [])) ∧
    (operation.LoadBalancerArn = "" →
      (createServicePlan operation).filter isLbWiringStep = []) ∧
    (DeployStep.buildAndPushImage ∈ createServicePlan operation ↔
      operation.Image = "") := by
  have hfilter_map : ∀ rules : List Rule,
      (rules.map DeployStep.addRule).filter isAddRuleStep =
        rules.map DeployStep.addRule := by
    intro rules
    rw [List.filter_map]
    have : (isAddRuleStep ∘ DeployStep.addRule) = fun _ => true := by
      funext r
      rfl
    rw [this, List.filter_true]
  have hmod_map : ∀ rules : List Rule,
      DeployStep.modifyLoadBalancerDefaultAction ∉ rules.map DeployStep.addRule := by
    intro rules hmem
    obtain ⟨r, -, hr⟩ := List.mem_map.mp hmem
    exact DeployStep.noConfusion hr
  have htg_map : ∀ rules : List Rule,
      (rules.map DeployStep.addRule).filter isCreateTargetGroup = [] := by
    intro rules
    rw [List.filter_map]
    have : (isCreateTargetGroup ∘ DeployStep.addRule) = fun _ => false := by
      funext r
      rfl
    rw [this, List.filter_false, List.map_nil]
  have hlb_map : ∀ rules : List Rule,
      (rules.map DeployStep.addRule).filter isLbWiringStep =
        rules.map DeployStep.addRule := by
    intro rules
    rw [List.filter_map]
    have : (isLbWiringStep ∘ DeployStep.addRule) = fun _ => true := by
      funext r
      rfl
    rw [this, List.filter_true]
  by_cases hImg : operation.Image = "" <;>
    by_cases hLb : operation.LoadBalancerArn = "" <;>
      by_cases hRules : operation.Rules = []
  all_goals
    simp only [createServicePlan, hImg, hLb, hRules, ne_eq, not_true_eq_false,
      not_false_eq_true, if_true, if_false, ite_true, ite_false,
      List.filter_append, List.filter_cons, List.filter_nil, List.append_nil,
      List.nil_append, List.mem_append, List.mem_cons, List.not_mem_nil,
      isLbWiringStep, isCreateTargetGroup, isAddRuleStep]
  all_goals
    constructor <;> simp_all [List.length_pos, hfilter_map, hmod_map, htg_map,
      hlb_map, List.filter_append, isLbWiringStep, isCreateTargetGroup,
      isAddRuleStep]

/-- Claim C1 witness: the plan for the spec's end-to-end example — an
application load balancer `my-alb` with one PATH rule — attaches
exactly that rule and never replaces the default action. -/
theorem createService_plan_spec_witness :
    ({ ServiceName := "svc", Cpu := "256", Image := "img", Memory := "512",
       Port := { port := 8080, protocol := "HTTP" }, LoadBalancerArn := "arn:alb",
       LoadBalancerName := "my-alb", Rules := [{ type := "PATH", value := "/api/*" }],
       EnvVars := [] } : ServiceCreateOperation).LoadBalancerArn ≠ "" ∧
    ({ ServiceName := "svc", Cpu := "256", Image := "img", Memory := "512",
       Port := { port := 8080, protocol := "HTTP" }, LoadBalancerArn := "arn:alb",
       LoadBalancerName := "my-alb", Rules := [{ type := "PATH", value := "/api/*" }],
       EnvVars := [] } : ServiceCreateOperation).Rules ≠ [] ∧
    ((createServicePlan
        { ServiceName := "svc", Cpu := "256", Image := "img", Memory := "512",
          Port := { port := 8080, protocol := "HTTP" }, LoadBalancerArn := "arn:alb",
          LoadBalancerName := "my-alb", Rules := [{ type := "PATH", value := "/api/*" }],
          EnvVars := [] }).filter isAddRuleStep =
      [DeployStep.addRule { type := "PATH", value := "/api/*" }] ∧
    DeployStep.modifyLoadBalancerDefaultAction ∉ createServicePlan
      { ServiceName := "svc", Cpu := "256", Image := "img", Memory := "512",
        Port := { port := 8080, protocol := "HTTP" }, LoadBalancerArn := "arn:alb",
        LoadBalancerName := "my-alb", Rules := [{ type := "PATH", value := "/api/*" }],
        EnvVars := [] }) :=
  ⟨by decide, by decide,
    ((createService_plan_spec _).2.1 (by decide)).2.1 (by decide)⟩

/-- `splitFirst` finds nothing exactly when the separator is absent. -/
theorem splitFirst_eq_none_iff (c : Char) (l : List Char) :
    splitFirst c l = none ↔ c ∉ l := by
  induction l with
  | nil => simp [splitFirst]
  | cons x xs ih =>
    simp only [splitFirst, List.mem_cons]
    by_cases hx : x = c
    · subst hx
      simp
    · rw [if_neg hx]
      cases hs : splitFirst c xs with
      | none =>
        simp only [hs]
        constructor
        · intro _
          push_neg
          exact ⟨fun h => hx h.symm, ih.mp hs⟩
        · intro _
          trivial
      | some ab =>
        obtain ⟨a, b⟩ := ab
        simp only [hs]
        constructor
        · intro h
          exact absurd h (by simp)
        · intro h
          push_neg at h
          rw [← ih] at h
          exact absurd hs (by simp [h.2])

/-- `splitN2` when the separator is absent. -/
theorem splitN2_of_none {s : String} (h : splitFirst '=' s.data = none) :
    splitN2 '=' s = [s] := by
  unfold splitN2
  rw [h]

/-- `splitN2` when the separator is present. -/
theorem splitN2_of_some {s : String} {a b : List Char}
    (h : splitFirst '=' s.data = some (a, b)) :
    splitN2 '=' s = [String.mk a, String.mk b] := by
  unfold splitN2
  rw [h]

/-- The `SetRules` loop panics exactly when some entry has no `=`. -/
theorem setRulesLoop_none_iff (rs : List String) :
    ∀ (msgs : List String) (rules : List Rule),
    setRulesLoop msgs rules rs = none ↔ ∃ r ∈ rs, '=' ∉ r.data := by
  induction rs with
  | nil =>
    intro msgs rules
    simp [setRulesLoop]
  | cons r rest ih =>
    intro msgs rules
    cases hs : splitFirst '=' r.data with
    | none =>
      have h2 : splitN2 '=' r = [r] := splitN2_of_none hs
      have hne : '=' ∉ r.data := (splitFirst_eq_none_iff '=' r.data).mp hs
      simp only [setRulesLoop, h2]
      constructor
      · intro _
        exact ⟨r, List.mem_cons_self _ _, hne⟩
      · intro _
        trivial
    | some ab =>
      obtain ⟨a, b⟩ := ab
      have h2 : splitN2 '=' r = [String.mk a, String.mk b] := splitN2_of_some hs
      have hmem : '=' ∈ r.data := by
        by_contra hc
        exact absurd ((splitFirst_eq_none_iff '=' r.data).mpr hc) (by simp [hs])
      simp only [setRulesLoop, h2]
      rw [ih]
      constructor
      · rintro ⟨r', hr', hr2⟩
        exact ⟨r', List.mem_cons_of_mem _ hr', hr2⟩
      · rintro ⟨r', hr', hr2⟩
        rcases List.mem_cons.mp hr' with rfl | hr'
        · exact absurd hmem hr2
        · exact ⟨r', hr', hr2⟩

/-- When every entry has a `=`, the `SetRules` loop returns the initial
messages extended by each entry's violations and the initial rules
extended by each entry's parse, in order. -/
theorem setRulesLoop_some (rs : List String) (h : ∀ r ∈ rs, '=' ∈ r.data) :
    ∀ (msgs : List String) (rules : List Rule),
    setRulesLoop msgs rules rs =
      some (msgs ++ (rs.map entryMsgs).flatten, rules ++ rs.map parsedRule) := by
  induction rs with
  | nil =>
    intro msgs rules
    simp [setRulesLoop]
  | cons r rest ih =>
    intro msgs rules
    have hmem : '=' ∈ r.data := h r (List.mem_cons_self _ _)
    obtain ⟨a, b, hs⟩ : ∃ a b, splitFirst '=' r.data = some (a, b) := by
      cases hs : splitFirst '=' r.data with
      | none =>
        exact absurd ((splitFirst_eq_none_iff '=' r.data).mp hs) (not_not_intro hmem)
      | some ab =>
        obtain ⟨a, b⟩ := ab
        exact ⟨a, b, rfl⟩
    have h2 : splitN2 '=' r = [String.mk a, String.mk b] := splitN2_of_some hs
    have hT : entryRuleType r = String.mk a := by
      simp [entryRuleType, h2]
    have hP : parsedRule r = { type := stringsToUpper (String.mk a), value := String.mk b } := by
      simp [parsedRule, h2]
    have hrest := ih fun x hx => h x (List.mem_cons_of_mem _ hx)
    by_cases hv : validRuleTypesMatch (String.mk a) = true
    · simp [setRulesLoop, h2, hrest, entryMsgs, hT, hv, hP]
    · simp [setRulesLoop, h2, hrest, entryMsgs, hT, hv, hP]

/-- When every entry has a `=`, `SetRules` reduces to the collected
messages check. -/
theorem setRules_eq_of_all_sep (loadBalancerArn : String) (inputRules : List String)
    (h : ∀ r ∈ inputRules, '=' ∈ r.data) :
    SetRules loadBalancerArn inputRules =
      if (setRulesMsgs loadBalancerArn inputRules).length > 0 then
        .errorExit (setRulesMsgs loadBalancerArn inputRules)
      else .ok (inputRules.map parsedRule) := by
  simp only [SetRules]
  rw [setRulesLoop_some inputRules h _ []]
  simp [setRulesMsgs]

/-- The collected messages are empty exactly when no violation is
present. -/
theorem setRulesMsgs_eq_nil_iff (loadBalancerArn : String) (inputRules : List String) :
    setRulesMsgs loadBalancerArn inputRules = [] ↔
      ¬((inputRules ≠ [] ∧ loadBalancerArn = "") ∨
        ∃ r ∈ inputRules, ¬ validRuleTypesMatch (entryRuleType r) = true) := by
  unfold setRulesMsgs
  rw [List.append_eq_nil]
  have h1 : ((if inputRules.length > 0 ∧ loadBalancerArn = "" then
      ["lb must be configured if rules are specified"] else []) = ([] : List String)) ↔
      ¬(inputRules ≠ [] ∧ loadBalancerArn = "") := by
    split_ifs with hc
    · constructor
      · intro h
        simp at h
      · intro hn
        exact absurd ⟨List.length_pos.mp hc.1, hc.2⟩ hn
    · constructor
      · intro _ hcon
        exact hc ⟨List.length_pos.mpr hcon.1, hcon.2⟩
      · intro _
        rfl
  have h2 : (∀ l ∈ inputRules.map entryMsgs, l = ([] : List String)) ↔
      ¬∃ r ∈ inputRules, ¬ validRuleTypesMatch (entryRuleType r) = true := by
    constructor
    · intro h
      rintro ⟨r, hr, hv⟩
      have hmem := h (entryMsgs r) (List.mem_map_of_mem _ hr)
      rw [entryMsgs, if_pos hv] at hmem
      simp at hmem
    · intro h l hl
      obtain ⟨r, hr, rfl⟩ := List.mem_map.mp hl
      by_cases hv : validRuleTypesMatch (entryRuleType r) = true
      · rw [entryMsgs, if_neg (not_not_intro hv)]
      · exact absurd ⟨r, hr, hv⟩ h
  rw [h1, List.flatten_eq_nil_iff, h2]
  exact not_or.symm

/-- Claim C3 (amended): `SetRules` panics (out-of-range access) when
some entry contains no `=`; otherwise it rejects exactly when a
non-empty rule list is supplied with no load balancer configured, or
some entry's type — the text before the first `=` — fails the pattern
`(?i)^host|path$`, i.e. neither starts with `host` nor ends with `path`
case-insensitively; every accepted entry is split at its first `=` with
the type upper-cased. -/
theorem setRules_characterization (loadBalancerArn : String)
    (inputRules : List String) :
    (SetRules loadBalancerArn inputRules = .panicked ↔
      ∃ r ∈ inputRules, '=' ∉ r.data) ∧
    ((∀ r ∈ inputRules, '=' ∈ r.data) →
      ((SetRules loadBalancerArn inputRules = .ok (inputRules.map parsedRule)) ↔
        ¬((inputRules ≠ [] ∧ loadBalancerArn = "") ∨
          ∃ r ∈ inputRules, ¬ validRuleTypesMatch (entryRuleType r) = true)) ∧
      (((inputRules ≠ [] ∧ loadBalancerArn = "") ∨
          ∃ r ∈ inputRules, ¬ validRuleTypesMatch (entryRuleType r) = true) →
        ∃ msgs, msgs ≠ [] ∧
          SetRules loadBalancerArn inputRules = .errorExit msgs)) := by
  by_cases hex : ∃ r ∈ inputRules, '=' ∉ r.data
  · have hres : SetRules loadBalancerArn inputRules = .panicked := by
      have h0 : setRulesLoop
          (if inputRules.length > 0 ∧ loadBalancerArn = "" then
            ["lb must be configured if rules are specified"] else []) [] inputRules =
          none :=
        (setRulesLoop_none_iff inputRules _ _).mpr hex
      simp only [SetRules, h0]
    refine ⟨⟨fun _ => hex, fun _ => hres⟩, fun hall => ?_⟩
    obtain ⟨r, hr, hne⟩ := hex
    exact absurd (hall r hr) hne
  · push_neg at hex
    have hred := setRules_eq_of_all_sep loadBalancerArn inputRules hex
    refine ⟨⟨fun hp => ?_, fun he => ?_⟩, fun _ => ⟨?_, ?_⟩⟩
    · rw [hred] at hp
      split_ifs at hp
    · obtain ⟨r, hr, hne⟩ := he
      exact absurd (hex r hr) hne
    · by_cases hnil : setRulesMsgs loadBalancerArn inputRules = []
      · rw [hred, if_neg (by simp [hnil])]
        simp only [true_iff]
        exact (setRulesMsgs_eq_nil_iff loadBalancerArn inputRules).mp hnil
      · rw [hred, if_pos (List.length_pos.mpr hnil)]
        constructor
        · intro h
          simp at h
        · intro hgood
          exact absurd ((setRulesMsgs_eq_nil_iff loadBalancerArn inputRules).mpr hgood)
            hnil
    · intro hbad
      have hnnil : setRulesMsgs loadBalancerArn inputRules ≠ [] := by
        intro hnil
        exact (setRulesMsgs_eq_nil_iff loadBalancerArn inputRules).mp hnil hbad
      refine ⟨setRulesMsgs loadBalancerArn inputRules, hnnil, ?_⟩
      rw [hred, if_pos (List.length_pos.mpr hnnil)]

/-- Claim C3 (counterexample): with a load balancer configured, the rule
entry `hostname=v` — whose type `hostname` is neither `host` nor `path`
case-insensitively — is accepted as `{HOSTNAME, v}` rather than
rejected, because the pattern `(?i)^host|path$` matches any string
starting with `host`. -/
theorem setRules_claim_counterexample :
    SetRules "arn:lb:1" ["hostname=v"] = .ok [{ type := "HOSTNAME", value := "v" }] ∧
    "hostname".data.map Char.toLower ≠ "host".data.map Char.toLower ∧
    "hostname".data.map Char.toLower ≠ "path".data.map Char.toLower := by
  refine ⟨by decide, by decide, by decide⟩

/-- Claim C3 witness: the amended characterization applied to one valid
entry `host=a` with a load balancer configured — it is accepted and
parsed with the type upper-cased. -/
theorem setRules_characterization_witness :
    (∀ r ∈ ["host=a"], '=' ∈ r.data) ∧
    SetRules "arn:lb:1" ["host=a"] = .ok (["host=a"].map parsedRule) :=
  ⟨by decide,
    (((setRules_characterization "arn:lb:1" ["host=a"]).2 (by decide)).1).mpr
      (by decide)⟩

/-- `firstSeen` on the empty list. -/
theorem firstSeen_nil : firstSeen [] = [] := by
  rw [firstSeen]

/-- `firstSeen` keeps the head and recurses on the survivors. -/
theorem firstSeen_cons (n : String) (ns : List String) :
    firstSeen (n :: ns) = n :: firstSeen (ns.filter fun m => m ≠ n) := by
  rw [firstSeen]

/-- `specTaskGroups` on the empty list. -/
theorem specTaskGroups_nil : specTaskGroups [] = [] := by
  unfold specTaskGroups
  rw [firstSeen_nil]
  rfl

/-- Every name `firstSeen` returns occurs in the input. -/
theorem mem_firstSeen (l : List String) (x : String) (h : x ∈ firstSeen l) :
    x ∈ l := by
  induction l using firstSeen.induct with
  | case1 =>
    rw [firstSeen_nil] at h
    simp at h
  | case2 n ns ih =>
    rw [firstSeen_cons] at h
    rcases List.mem_cons.mp h with rfl | h'
    · exact List.mem_cons_self _ _
    · exact List.mem_cons_of_mem _ (List.mem_filter.mp (ih h')).1

/-- `incrementGroup` preserves the sequence of group names. -/
theorem incrementGroup_map_name (n : String) (gs : List TaskGroup) :
    (incrementGroup n gs).map TaskGroup.TaskGroupName =
      gs.map TaskGroup.TaskGroupName := by
  induction gs with
  | nil => rfl
  | cons g rest ih =>
    unfold incrementGroup
    split_ifs with hg
    · simp
    · simp [ih]

/-- With distinct names, `incrementGroup` bumps exactly the group
holding the name. -/
theorem incrementGroup_eq_of_nodup (n : String) (gs : List TaskGroup)
    (h : (gs.map TaskGroup.TaskGroupName).Nodup) :
    incrementGroup n gs = gs.map fun g =>
      if g.TaskGroupName = n then { g with Instances := g.Instances + 1 }
      else g := by
  induction gs with
  | nil => rfl
  | cons g rest ih =>
    simp only [List.map_cons, List.nodup_cons] at h
    unfold incrementGroup
    split_ifs with hg
    · have hrest : rest.map (fun g' =>
          if g'.TaskGroupName = n then { g' with Instances := g'.Instances + 1 }
          else g') = rest.map (fun g' => g') :=
        List.map_congr_left fun g' hg' => by
          rw [if_neg]
          intro hc
          exact h.1 (hg ▸ hc ▸ List.mem_map_of_mem TaskGroup.TaskGroupName hg')
      simp only [List.map_cons, if_pos hg, hrest, List.map_id']
    · simp only [List.map_cons, if_neg hg]
      rw [ih h.2]

/-- The name-membership test reads only the names. -/
theorem any_name_congr {gs gs' : List TaskGroup}
    (h : gs.map TaskGroup.TaskGroupName = gs'.map TaskGroup.TaskGroupName)
    (m : String) :
    (gs.any fun g => g.TaskGroupName = m) =
      (gs'.any fun g => g.TaskGroupName = m) := by
  have key : ∀ l : List TaskGroup,
      (l.any fun g => g.TaskGroupName = m) =
        ((l.map TaskGroup.TaskGroupName).any fun x => x = m) := by
    intro l
    induction l with
    | nil => rfl
    | cons g rest ih => simp [List.any_cons, ih]
  rw [key gs, key gs', h]

/-- The accumulation loop of `ListTaskGroups`, characterized: starting
from groups with distinct names, it bumps each starting group by the
occurrences of its name and appends the first-seen groups of the names
not already present. -/
theorem groupsFold_spec (ns : List String) :
    ∀ gs : List TaskGroup, (gs.map TaskGroup.TaskGroupName).Nodup →
    ns.foldl addName gs =
      gs.map (fun g => { TaskGroupName := g.TaskGroupName,
                         Instances := g.Instances + ns.count g.TaskGroupName }) ++
      specTaskGroups (ns.filter fun n => !(gs.any fun g => g.TaskGroupName = n)) := by
  induction ns with
  | nil =>
    intro gs _
    simp only [List.foldl_nil, List.count_nil, List.filter_nil, specTaskGroups_nil,
      List.append_nil]
    have hify : gs.map (fun g =>
        (⟨g.TaskGroupName, g.Instances + 0⟩ : TaskGroup)) =
        gs.map fun g => g :=
      List.map_congr_left fun g _ => by cases g; rfl
    rw [hify, List.map_id']
  | cons n rest ih =>
    intro gs h
    rw [List.foldl_cons]
    by_cases hmem : (gs.any fun g => g.TaskGroupName = n) = true
    · have haddn : addName gs n = incrementGroup n gs := by
        unfold addName
        rw [if_pos hmem]
      rw [haddn]
      have hnames := incrementGroup_map_name n gs
      have hnodup : ((incrementGroup n gs).map TaskGroup.TaskGroupName).Nodup := by
        rw [hnames]
        exact h
      rw [ih _ hnodup]
      have hfilter : (rest.filter fun m =>
          !((incrementGroup n gs).any fun g => g.TaskGroupName = m)) =
          rest.filter fun m => !(gs.any fun g => g.TaskGroupName = m) :=
        List.filter_congr fun m _ => by rw [any_name_congr hnames m]
      have hhead : ((n :: rest).filter fun m =>
          !(gs.any fun g => g.TaskGroupName = m)) =
          rest.filter fun m => !(gs.any fun g => g.TaskGroupName = m) := by
        rw [List.filter_cons]
        simp [hmem]
      have hmap : (incrementGroup n gs).map (fun g =>
          (⟨g.TaskGroupName, g.Instances + rest.count g.TaskGroupName⟩ : TaskGroup)) =
          gs.map (fun g =>
            (⟨g.TaskGroupName, g.Instances + (n :: rest).count g.TaskGroupName⟩ :
              TaskGroup)) := by
        rw [incrementGroup_eq_of_nodup n gs h, List.map_map]
        refine List.map_congr_left fun g _ => ?_
        by_cases hgn : g.TaskGroupName = n
        · simp only [Function.comp, if_pos hgn, List.count_cons, hgn,
            beq_self_eq_true, if_true, TaskGroup.mk.injEq, true_and]
          omega
        · simp only [Function.comp, if_neg hgn, List.count_cons, TaskGroup.mk.injEq,
            true_and]
          have hne : (n == g.TaskGroupName) = false := by
            simp [Ne.symm hgn]
          rw [hne]
          simp
      rw [hmap, hfilter, hhead]
    · have haddn : addName gs n = gs ++ [(⟨n, 1⟩ : TaskGroup)] := by
        unfold addName
        rw [if_neg hmem]
      rw [haddn]
      have hanyf : (gs.any fun g => g.TaskGroupName = n) = false :=
        Bool.eq_false_iff.mpr hmem
      have hfresh : n ∉ gs.map TaskGroup.TaskGroupName := by
        intro hmemn
        obtain ⟨g, hg, hgn⟩ := List.mem_map.mp hmemn
        exact List.any_eq_false.mp hanyf g hg (by simp [hgn])
      have hnodup2 : ((gs ++ [(⟨n, 1⟩ : TaskGroup)]).map
          TaskGroup.TaskGroupName).Nodup := by
        rw [List.map_append]
        simp only [List.map_cons, List.map_nil]
        rw [List.nodup_append]
        exact ⟨h, List.nodup_singleton _, by simpa [List.disjoint_singleton] using hfresh⟩
      rw [ih _ hnodup2, List.map_append]
      have hmap2 : gs.map (fun g =>
          (⟨g.TaskGroupName, g.Instances + rest.count g.TaskGroupName⟩ : TaskGroup)) =
          gs.map (fun g =>
            (⟨g.TaskGroupName, g.Instances + (n :: rest).count g.TaskGroupName⟩ :
              TaskGroup)) :=
        List.map_congr_left fun g hg => by
          have hgn : ¬(n == g.TaskGroupName) = true := by
            simp only [beq_iff_eq]
            intro hc
            exact hfresh (hc ▸ List.mem_map_of_mem TaskGroup.TaskGroupName hg)

          simp [List.count_cons, hgn]
      have hheadfilter : ((n :: rest).filter fun m =>
          !(gs.any fun g => g.TaskGroupName = m)) =
          n :: rest.filter fun m => !(gs.any fun g => g.TaskGroupName = m) := by
        rw [List.filter_cons]
        simp [hanyf]
      rw [hmap2, hheadfilter]
      have hfilter2 : (rest.filter fun m =>
          !((gs ++ [(⟨n, 1⟩ : TaskGroup)]).any
            fun g => g.TaskGroupName = m)) =
          (rest.filter fun m => !(gs.any fun g => g.TaskGroupName = m)).filter
            fun m => !(n == m) := by
        rw [List.filter_filter]
        refine List.filter_congr fun m _ => ?_
        by_cases hmn : n = m <;>
          simp [List.any_append, Bool.not_or, Bool.and_comm, hmn]
      rw [hfilter2]
      set L := rest.filter fun m => !(gs.any fun g => g.TaskGroupName = m) with hL
      have hLcount : L.count n = rest.count n := by
        rw [hL]
        exact List.count_filter (by simp [hanyf])
      have hLfilter : (L.filter fun m => !(n == m)) = L.filter fun m => m ≠ n :=
        List.filter_congr fun m _ => by
          by_cases hmn : m = n
          · simp [hmn]
          · simp [hmn, Ne.symm hmn]
      have hspec : specTaskGroups (n :: L) =
          (⟨n, L.count n + 1⟩ : TaskGroup) ::
            (firstSeen (L.filter fun m => m ≠ n)).map
              (fun m => (⟨m, (n :: L).count m⟩ : TaskGroup)) := by
        unfold specTaskGroups
        rw [firstSeen_cons, List.map_cons, List.count_cons_self]
      have htail : (firstSeen (L.filter fun m => m ≠ n)).map
          (fun m => (⟨m, (n :: L).count m⟩ : TaskGroup)) =
          specTaskGroups (L.filter fun m => m ≠ n) := by
        unfold specTaskGroups
        refine List.map_congr_left fun m hm => ?_
        have hmmem := List.mem_filter.mp (mem_firstSeen _ _ hm)
        have hmne : m ≠ n := by simpa using hmmem.2
        have h1 : (n :: L).count m = L.count m := by
          rw [List.count_cons]
          simp [Ne.symm hmne]
        have h2 : (L.filter fun m => m ≠ n).count m = L.count m :=
          List.count_filter (by simpa using hmne)
        rw [h1, h2]
      rw [hLfilter, hspec, htail]
      simp only [List.map_cons, List.map_nil, List.append_assoc, List.singleton_append,
        hLcount]
      congr 2
      rw [Nat.add_comm]

/-- Scanning tasks is scanning the logical names their tags match. -/
theorem foldl_scanTask_eq (tasks : List Task) :
    ∀ gs : List TaskGroup,
    tasks.foldl (fun gs t => scanTask gs t.StartedBy) gs =
      (tasks.filterMap fun t => extractTaskGroupName t.StartedBy).foldl addName gs := by
  induction tasks with
  | nil =>
    intro gs
    rfl
  | cons t ts ih =>
    intro gs
    rw [List.foldl_cons, List.filterMap_cons]
    cases he : extractTaskGroupName t.StartedBy with
    | none =>
      have hscan : scanTask gs t.StartedBy = gs := by
        unfold scanTask
        rw [he]
      rw [hscan, ih]
    | some nm =>
      have hscan : scanTask gs t.StartedBy = addName gs nm := by
        unfold scanTask
        rw [he]
      rw [hscan, ih, List.foldl_cons]

/-- Claim C2: `ListTaskGroups` yields exactly one group per distinct
logical name among the started-by tags matching `fargate:(.*)`, in
first-seen order, each counting the tasks bearing that name; tasks
whose tag does not match contribute to no group. In particular, tags
`fargate:web`, `fargate:web`, `fargate:worker` plus a non-matching tag
yield exactly the groups `web` (2) and `worker` (1). -/
theorem listTaskGroups_spec :
    (∀ tasks : List Task,
      ListTaskGroups tasks =
        specTaskGroups (tasks.filterMap fun t => extractTaskGroupName t.StartedBy)) ∧
    ListTaskGroups
        [mkStartedTask "fargate:web", mkStartedTask "fargate:web",
         mkStartedTask "fargate:worker", mkStartedTask "ad-hoc"] =
      [{ TaskGroupName := "web", Instances := 2 },
       { TaskGroupName := "worker", Instances := 1 }] := by
  constructor
  · intro tasks
    unfold ListTaskGroups
    rw [foldl_scanTask_eq, groupsFold_spec _ [] (by simp)]
    simp only [List.map_nil, List.nil_append, List.any_nil, Bool.not_false,
      List.filter_true]
  · decide

end Fargate
